import Mathlib

/-!
Verification development for the handwritten-test analysis system:
the frontend demo application (src/frontend/app) and the
extraction-and-verification pipeline described by the specification.

Frontend functions are embedded directly from the TypeScript source
(src/frontend/app/page.tsx, src/frontend/app/components/LoadingScreen.tsx).
The backend pipeline (Deadline Supervisor, Recognition Orchestrator,
Segmenter, Tiered Extractor, Verifier) is not part of the checked-in
sources; those components are modelled from the specification, as noted
in their doc comments.
-/

namespace Spec2Proof

/-! ## String normalisation helpers (embedding of the JS idioms used in
`handlePracticeNext` of src/frontend/app/page.tsx) -/

/-- Drop leading whitespace characters. -/
def dropWs (l : List Char) : List Char := l.dropWhile Char.isWhitespace

/-- Drop trailing whitespace characters. -/
def trimTrailingWs (l : List Char) : List Char :=
  (l.reverse.dropWhile Char.isWhitespace).reverse

/-- Trim whitespace at both ends (JS `String.prototype.trim`). -/
def trimChars (l : List Char) : List Char := trimTrailingWs (dropWs l)

/-- Embedding of JS `s.trim().toLowerCase().replace(/\s+/g, '')`:
trim, lowercase every character, then delete all whitespace. -/
def normalizeUserAnswer (s : String) : List Char :=
  ((trimChars s.data).map Char.toLower).filter (fun c => !c.isWhitespace)

/-- Embedding of JS `s.replace(/[%\\]/g, '')`: delete every percent sign
and backslash character. -/
def stripPercentBackslash (l : List Char) : List Char :=
  l.filter (fun c => !(c == '%' || c == '\\'))

/-- Embedding of JS `String.prototype.startsWith` on character lists. -/
def startsWithSub : List Char → List Char → Bool
  | _, [] => true
  | [], _ :: _ => false
  | a :: as, b :: bs => a == b && startsWithSub as bs

/-- Embedding of JS `String.prototype.includes` (substring test) on
character lists. -/
def containsSub : List Char → List Char → Bool
  | [], sub => sub.isEmpty
  | a :: as, sub => startsWithSub (a :: as) sub || containsSub as sub

/-! ## Demo Home page grading (src/frontend/app/page.tsx, second
version in the file: `handlePracticeNext` using `Math.random()`) -/

/-- Embedding of the demo `handlePracticeNext`: for each answered
question key (in iteration order) the verdict is `Math.random() > 0.5`.
The stream of `Math.random()` draws is modelled as `rand : Nat → ℚ`
indexed by iteration position; the answer string is never inspected. -/
def demoGrade (rand : Nat → ℚ) : Nat → List (Nat × String) → List (Nat × Bool)
  | _, [] => []
  | i, (k, _) :: rest => (k, decide (mkRat 1 2 < rand i)) :: demoGrade rand (i + 1) rest

/-! ## Subject-aware Home page grading (src/frontend/app/page.tsx, first
version in the file: `handlePracticeNext` with hard-coded answers) -/

/-- Embedding of the `mathAnswers` record literal. -/
def mathAnswers : Nat → List String
  | 0 => ["0"]
  | 1 => ["\\frac\x7b\\sqrt\x7b3\x7d\x7d\x7b2\x7d", "sqrt(3)/2", "√3/2", "0.866", "sqrt3/2"]
  | 2 => ["\\frac\x7b2\\sqrt\x7b3\x7d\x7d\x7b3\x7d", "2sqrt(3)/3", "2√3/3", "1.155", "2sqrt3/3"]
  | _ => []

/-- Embedding of the `physicsAnswers` record literal. -/
def physicsAnswers : Nat → List String
  | 0 => ["65.3%", "65.3", "0.653"]
  | 1 => ["81.7%", "81.7", "0.817"]
  | 2 => ["66.8%", "66.8", "0.668"]
  | _ => []

/-- Embedding of the normalisation applied to each candidate correct
answer: `correct.toLowerCase().replace(/\s+/g, '').replace(/[%\\]/g, '')`. -/
def normalizeCorrect (s : String) : List Char :=
  stripPercentBackslash ((s.data.map Char.toLower).filter (fun c => !c.isWhitespace))

/-- Embedding of the per-candidate predicate inside `possibleAnswers.some`:
exact match after normalisation, or one of the hard-coded substring /
exact checks keyed only on the question id. `nu` is the normalised user
answer after `%`/`\` removal. -/
def answerMatches (questionId : Nat) (nu : List Char) (correct : String) : Bool :=
  let nc := normalizeCorrect correct
  nu == nc ||
    (containsSub nu "65.3".data && questionId == 0) ||
    (containsSub nu "81.7".data && questionId == 1) ||
    (containsSub nu "66.8".data && questionId == 2) ||
    (nu == "0".data && questionId == 0) ||
    (containsSub nu "sqrt3".data && questionId == 1) ||
    (containsSub nu "2sqrt3".data && questionId == 2)

/-- Embedding of the subject dispatch
`selectedSubject?.toLowerCase() === 'physics' ? physicsAnswers : mathAnswers`
followed by the `some` over `correctAnswers[questionId] || []`. -/
def gradeAnswer (subject : String) (questionId : Nat) (answer : String) : Bool :=
  let correctAnswers :=
    if String.mk (subject.data.map Char.toLower) = "physics" then physicsAnswers else mathAnswers
  let nu := stripPercentBackslash (normalizeUserAnswer answer)
  (correctAnswers questionId).any (answerMatches questionId nu)

/-! ## LoadingScreen analysis step
(src/frontend/app/components/LoadingScreen.tsx, lines 36-76) -/

/-- Outcome of an axios POST: either a payload or a thrown error. -/
inductive ApiOutcome (α : Type) where
  | ok (payload : α)
  | err
deriving DecidableEq

/-- Payload of `/api/analyze-mistakes` as consumed by the component. -/
structure AnalysisResponse where
  mistakes : List String
  summary : String
deriving DecidableEq

/-- Data handed to `onComplete` by the loading screen. -/
structure AnalysisData where
  mistakes : List String
  summary : String
  practiceQuestions : List String
deriving DecidableEq

/-- Embedding of the `analyzeTimeout` callback body of LoadingScreen:
on analysis success, practice questions are requested and truncated to 3
(`slice(0, 3)`); a practice-generation error keeps the analysis but
empties the practice list; an analysis error completes with empty
mistakes, empty summary and no practice questions. `onComplete` is
called in every modelled path, so the step always produces a value. -/
def loadingStep (analyze : ApiOutcome AnalysisResponse)
    (practice : ApiOutcome (List String)) : AnalysisData :=
  match analyze with
  | .err => { mistakes := [], summary := "", practiceQuestions := [] }
  | .ok r =>
    match practice with
    | .err => { mistakes := r.mistakes, summary := r.summary, practiceQuestions := [] }
    | .ok qs => { mistakes := r.mistakes, summary := r.summary, practiceQuestions := qs.take 3 }

/-! ## Pipeline data model

Modelled from the spec: the backend pipeline sources
(`backend/main.py`, `backend/services/*`) are not among the checked-in
files; the data model below follows section 3 of the specification.
Confidences (float in [0,1] in the spec) are modelled as rationals. -/

/-- Modelled from the spec: the extraction tier tags of section 3
(`tierUsed` enumeration). -/
inductive Tier where
  | SEMANTIC
  | AGGRESSIVE
  | MINIMAL
  | PATTERN
  | NONE
deriving DecidableEq, Repr

/-- Modelled from the spec: a `RecognitionCandidate` produced by one
transcription backend / preprocessing-variant run. -/
structure RecognitionCandidate where
  sourceVariant : String
  text : String
  confidence : ℚ
deriving DecidableEq

/-- Modelled from the spec: a `QuestionSegment` derived from a
Transcript by the Segmenter. -/
structure QuestionSegment where
  questionNumber : String
  rawText : String
  hasBoxMarker : Bool
  hasCheckMarker : Bool
deriving DecidableEq

/-- Modelled from the spec: an `ExtractionResult`, one per
QuestionSegment; `answer = none` with `tierUsed = NONE` signals total
extraction failure. -/
structure ExtractionResult where
  questionNumber : String
  answer : Option String
  tierUsed : Tier
  confidence : ℚ
deriving DecidableEq

/-- Modelled from the spec: a `VerificationResult`, the per-question
record in the final mapping. -/
structure VerificationResult where
  questionNumber : String
  finalAnswer : String
  matchConfidence : ℚ
  corrected : Bool
deriving DecidableEq

/-! ## Recognition Orchestrator candidate selection

Modelled from the spec, section 4.2: pick the candidate with the highest
confidence; ties broken by longest non-whitespace character count. -/

/-- Count of non-whitespace characters of a string. -/
def nonWhitespaceCount (s : String) : Nat :=
  (s.data.filter (fun c => !c.isWhitespace)).length

/-- Modelled from the spec: strict "b beats a" comparison used by
candidate selection — higher confidence wins, and on equal confidence a
strictly longer non-whitespace text wins. -/
def beats (a b : RecognitionCandidate) : Prop :=
  a.confidence < b.confidence ∨
    (a.confidence = b.confidence ∧ nonWhitespaceCount a.text < nonWhitespaceCount b.text)

instance (a b : RecognitionCandidate) : Decidable (beats a b) := by
  unfold beats; infer_instance

/-- Keep the better of two candidates; the incumbent `a` is kept unless
`b` strictly beats it (so earlier candidates win remaining ties). -/
def pickBetter (a b : RecognitionCandidate) : RecognitionCandidate :=
  if beats a b then b else a

/-- Modelled from the spec: the Recognition Orchestrator's selection of
the single best candidate among all completed recognition runs. -/
def selectBest : List RecognitionCandidate → Option RecognitionCandidate
  | [] => none
  | c :: cs => some (cs.foldl pickBetter c)

/-- Reflexive comparison: `a` is no better than `b` under the
confidence-then-length ordering. -/
def keyLe (a b : RecognitionCandidate) : Prop :=
  a.confidence < b.confidence ∨
    (a.confidence = b.confidence ∧ nonWhitespaceCount a.text ≤ nonWhitespaceCount b.text)

/-! ## PATTERN tier

Modelled from the spec, section 4.4 tier 4: a fully deterministic,
no-external-call scan for (a) set-builder clauses, (b) inequality /
exclusion clauses (possibly repeated, comma-separated), (c) the trailing
token sequence after the last equals sign, (d) content immediately
preceding a checkmark or inside a box delimiter, tried in that fixed
priority order. -/

/-- Split a character list at the first closing brace, returning the
content before it and the remainder after it. -/
def splitAtClose : List Char → Option (List Char × List Char)
  | [] => none
  | c :: rest =>
    if c == '\x7d' then some ([], rest)
    else
      match splitAtClose rest with
      | some (a, b) => some (c :: a, b)
      | none => none

/-- Modelled from the spec: scan for a set-builder clause — a braced
group whose body mentions a membership or not-equal symbol (the
documented detection pattern for set notation). Returns the clause with
its braces. -/
def findSetClause : List Char → Option (List Char)
  | [] => none
  | c :: rest =>
    if c == '\x7b' then
      match splitAtClose rest with
      | some (inner, _) =>
        if inner.any (fun d => d == '∈' || d == '≠') then
          some ('\x7b' :: (inner ++ ['\x7d']))
        else findSetClause rest
      | none => findSetClause rest
    else findSetClause rest

/-- Does the list, after optional whitespace, start with the not-equal
symbol? -/
def nextIsNeq (l : List Char) : Bool :=
  match dropWs l with
  | c :: _ => c == '≠'
  | [] => false

/-- Modelled from the spec: scan for the first inequality/exclusion
clause (a variable letter followed by the not-equal symbol) and return
from that variable through the end of the segment text, so that a
comma-separated list of repeated exclusion clauses is kept whole. -/
def findExclClause : List Char → Option (List Char)
  | [] => none
  | c :: rest =>
    if c.isAlpha && nextIsNeq rest then some (trimTrailingWs (c :: rest))
    else findExclClause rest

/-- Modelled from the spec: the trailing token sequence after the last
equals sign, trimmed; `none` when there is no equals sign or nothing
follows it. -/
def afterLastEq (l : List Char) : Option (List Char) :=
  if l.any (fun c => c == '=') then
    let tail := (l.reverse.takeWhile (fun c => !(c == '='))).reverse
    let t := trimTrailingWs (dropWs tail)
    if t.isEmpty then none else some t
  else none

/-- Modelled from the spec: content immediately preceding a checkmark
glyph, or failing that the content inside a square-bracket box
delimiter; trimmed, `none` when empty. -/
def beforeCheckOrBox (l : List Char) : Option (List Char) :=
  if l.any (fun c => c == '✓') then
    let pre := trimTrailingWs (dropWs (l.takeWhile (fun c => !(c == '✓'))))
    if pre.isEmpty then none else some pre
  else
    match l.dropWhile (fun c => !(c == '[')) with
    | _ :: rest =>
      let inner := trimTrailingWs (dropWs (rest.takeWhile (fun c => !(c == ']'))))
      if inner.isEmpty then none else some inner
    | [] => none

/-- Modelled from the spec: the PATTERN tier — the deterministic
pattern-matching fallback, trying the four clause detectors in fixed
priority order. No external service is involved. -/
def patternExtract (text : String) : Option String :=
  match findSetClause text.data with
  | some a => some (String.mk a)
  | none =>
    match findExclClause text.data with
    | some a => some (String.mk a)
    | none =>
      match afterLastEq text.data with
      | some a => some (String.mk a)
      | none =>
        match beforeCheckOrBox text.data with
        | some a => some (String.mk a)
        | none => none

/-! ## Tiered Extractor

Modelled from the spec, section 4.4: up to four ordered tiers, stopping
at the first that yields a non-empty well-formed answer; segments whose
text is very short (below the MINIMAL cutoff of non-whitespace
characters) skip the SEMANTIC and AGGRESSIVE tiers. -/

/-- An interpreter oracle: the external interpreter's (possibly failing)
response to each tier's instruction template on a given text. -/
def Interp : Type := Tier → String → Option String

/-- Modelled from the spec: an answer is used only when non-empty and
well-formed; a blank response counts as a failure of that tier. -/
def wellFormed (r : Option String) : Option String :=
  match r with
  | some a => if (dropWs a.data).isEmpty then none else some a
  | none => none

/-- Modelled from the spec: the character-count cutoff below which the
MINIMAL short-circuit applies (about 10 non-whitespace characters). -/
def minimalCutoff : Nat := 10

/-- Modelled from the spec: run a single tier. The second component
records the external interpreter calls performed: the three interpreter
tiers each make exactly one, the PATTERN tier none. -/
def runTier (interp : Interp) (t : Tier) (text : String) : Option String × List Tier :=
  match t with
  | .SEMANTIC => (wellFormed (interp .SEMANTIC text), [.SEMANTIC])
  | .AGGRESSIVE => (wellFormed (interp .AGGRESSIVE text), [.AGGRESSIVE])
  | .MINIMAL => (wellFormed (interp .MINIMAL text), [.MINIMAL])
  | .PATTERN => (patternExtract text, [])
  | .NONE => (none, [])

/-- Modelled from the spec: the tier order for a segment — the fixed
sequence SEMANTIC, AGGRESSIVE, MINIMAL, PATTERN, except that very short
text short-circuits to MINIMAL then PATTERN. -/
def tierSequence (text : String) : List Tier :=
  if nonWhitespaceCount text < minimalCutoff then [.MINIMAL, .PATTERN]
  else [.SEMANTIC, .AGGRESSIVE, .MINIMAL, .PATTERN]

/-- Run tiers in order, stopping at the first success; also returns the
trace of tiers actually invoked, in invocation order. -/
def runTierList (interp : Interp) (text : String) :
    List Tier → Option (String × Tier) × List Tier
  | [] => (none, [])
  | t :: rest =>
    match (runTier interp t text).1 with
    | some a => (some (a, t), [t])
    | none =>
      let r := runTierList interp text rest
      (r.1, t :: r.2)

/-- Modelled from the spec: nominal confidence attached to an answer by
the tier that produced it (exact values are tuning choices; they
decrease with tier permissiveness, and NONE carries 0). -/
def tierConfidence : Tier → ℚ
  | .SEMANTIC => mkRat 9 10
  | .AGGRESSIVE => mkRat 7 10
  | .MINIMAL => mkRat 1 2
  | .PATTERN => mkRat 3 10
  | .NONE => 0

/-- Modelled from the spec: the Tiered Extractor on one QuestionSegment,
producing its single ExtractionResult together with the trace of
invoked tiers. All four tiers failing yields `answer = none`,
`tierUsed = NONE`, `confidence = 0`. -/
def extractSegment (interp : Interp) (seg : QuestionSegment) :
    ExtractionResult × List Tier :=
  let r := runTierList interp seg.rawText (tierSequence seg.rawText)
  match r.1 with
  | some (a, t) =>
    ({ questionNumber := seg.questionNumber, answer := some a,
       tierUsed := t, confidence := tierConfidence t }, r.2)
  | none =>
    ({ questionNumber := seg.questionNumber, answer := none,
       tierUsed := .NONE, confidence := 0 }, r.2)

/-! ## Segmenter

Modelled from the spec, section 4.3: question-boundary markers follow a
question-numbering grammar (a leading integer optionally followed by a
single lowercase letter, optionally preceded by "Q" or "Question",
case-insensitive); text between one marker and the next becomes that
segment's raw text; with no markers at all, the whole transcript becomes
a single segment numbered "1"; an empty transcript yields no segments. -/

/-- Split a character list into newline-separated lines. -/
def splitLinesAux : List Char → List Char → List String
  | [], acc => [String.mk acc.reverse]
  | c :: rest, acc =>
    if c == '\n' then String.mk acc.reverse :: splitLinesAux rest []
    else splitLinesAux rest (c :: acc)

/-- The transcript's lines (an empty transcript has one empty line). -/
def splitLines (t : String) : List String := splitLinesAux t.data []

/-- Is the character a delimiter that may close a question marker? -/
def isMarkerDelim (c : Char) : Bool :=
  c == '.' || c == ')' || c == ':' || c.isWhitespace

/-- Strip an optional case-insensitive "Question" or "Q" prefix. -/
def stripQuestionWord (l : List Char) : List Char :=
  let low := l.map Char.toLower
  if startsWithSub low "question".data then l.drop 8
  else if startsWithSub low "q".data then l.drop 1
  else l

/-- Modelled from the spec: parse a question-boundary marker at the
start of a (whitespace-trimmed) line, returning the question number
(digits plus optional single lowercase letter, without the "Q" word). -/
def parseMarker (line : String) : Option String :=
  let l := stripQuestionWord (dropWs line.data)
  let digits := l.takeWhile Char.isDigit
  let rest := l.drop digits.length
  if digits.isEmpty then none
  else
    match rest with
    | [] => some (String.mk digits)
    | c :: rest2 =>
      if c.isLower then
        match rest2 with
        | [] => some (String.mk (digits ++ [c]))
        | d :: _ => if isMarkerDelim d then some (String.mk (digits ++ [c])) else none
      else if isMarkerDelim c then some (String.mk digits)
      else none

/-- Modelled from the spec: box-drawing artifact detection — the raw
text contains a bracketed clause. -/
def hasBoxMarkerText (t : String) : Bool :=
  t.data.any (fun c => c == '[') && t.data.any (fun c => c == ']')

/-- Modelled from the spec: checkmark detection — the raw text contains
a checkmark glyph. -/
def hasCheckMarkerText (t : String) : Bool :=
  t.data.any (fun c => c == '✓')

/-- Build a QuestionSegment from a question number and raw text. -/
def mkSegment (q : String) (txt : String) : QuestionSegment :=
  { questionNumber := q, rawText := txt,
    hasBoxMarker := hasBoxMarkerText txt, hasCheckMarker := hasCheckMarkerText txt }

/-- Fold over the transcript's lines: a line carrying a marker starts a
new (number, accumulated text) block, other lines extend the current
block; text before the first marker is not attributed to any question. -/
def buildBlocks : List String → Option (String × String) → List (String × String)
  | [], none => []
  | [], some cur => [cur]
  | line :: rest, cur =>
    match parseMarker line with
    | some q =>
      match cur with
      | none => buildBlocks rest (some (q, line))
      | some c => c :: buildBlocks rest (some (q, line))
    | none =>
      match cur with
      | none => buildBlocks rest none
      | some (q, acc) => buildBlocks rest (some (q, acc ++ "\n" ++ line))

/-- Modelled from the spec: the markers found in a transcript, line by
line. -/
def findMarkers (t : String) : List String :=
  (splitLines t).filterMap parseMarker

/-- Modelled from the spec: the Segmenter. Empty transcripts produce no
segments; transcripts without any marker produce the single fallback
segment numbered "1" holding the entire transcript; otherwise one
segment per marker-delimited block, in first-appearance order. -/
def segmentTranscript (t : String) : List QuestionSegment :=
  if t.data.isEmpty then []
  else
    match buildBlocks (splitLines t) none with
    | [] => [mkSegment "1" t]
    | blocks => blocks.map (fun p => mkSegment p.1 p.2)

/-! ## Verifier and pipeline assembly

Modelled from the spec, sections 4.5, 5 and 7: the Verifier confirms or
corrects each non-null extraction through the external interpreter; a
timed-out verification passes the unverified extracted answer through
unchanged with `matchConfidence = 0, corrected = false`. The pipeline
carries an overall budget; segments that cannot be resolved within the
remaining budget are marked `tierUsed = NONE` / `matchConfidence = 0`
instead of failing the run, and results are reassembled into a
write-once mapping keyed by question number. -/

/-- Outcome of one verification request to the external interpreter. -/
inductive VerdictOutcome where
  | timeout
  | ok (finalAnswer : String) (matchConfidence : ℚ) (corrected : Bool)
deriving DecidableEq

/-- Modelled from the spec: the pipeline's environment of external
collaborators — the interpreter oracle used by the extraction tiers, the
verification oracle, and the (abstract) time cost of fully resolving one
segment's text against the overall budget. -/
structure PipelineEnv where
  interp : Interp
  verify : String → String → VerdictOutcome
  cost : String → Nat

/-- The Tiered Extractor's result for one segment (trace discarded). -/
def extractOne (env : PipelineEnv) (seg : QuestionSegment) : ExtractionResult :=
  (extractSegment env.interp seg).1

/-- Modelled from the spec: the degraded record given to a segment that
was not resolved before budget exhaustion. -/
def markUnresolved (seg : QuestionSegment) : ExtractionResult :=
  { questionNumber := seg.questionNumber, answer := none,
    tierUsed := Tier.NONE, confidence := 0 }

/-- Modelled from the spec: process segments in order under the overall
budget; a segment whose cost fits the remaining budget is resolved by
the Tiered Extractor (consuming its cost), any other segment is marked
unresolved, and the run always continues to the end of the batch. -/
def extractAll (env : PipelineEnv) : Nat → List QuestionSegment → List ExtractionResult
  | _, [] => []
  | b, s :: rest =>
    if env.cost s.rawText ≤ b then
      extractOne env s :: extractAll env (b - env.cost s.rawText) rest
    else
      markUnresolved s :: extractAll env b rest

/-- Modelled from the spec: verify one extraction. Null extractions pass
through as degraded records; a verification timeout passes the
unverified extracted answer through unchanged with
`matchConfidence = 0, corrected = false`. -/
def verifyOne (env : PipelineEnv) (e : ExtractionResult) : VerificationResult :=
  match e.answer with
  | none =>
    { questionNumber := e.questionNumber, finalAnswer := "",
      matchConfidence := 0, corrected := false }
  | some a =>
    match env.verify e.questionNumber a with
    | .timeout =>
      { questionNumber := e.questionNumber, finalAnswer := a,
        matchConfidence := 0, corrected := false }
    | .ok f m c =>
      { questionNumber := e.questionNumber, finalAnswer := f,
        matchConfidence := m, corrected := c }

/-- Modelled from the spec: batch verification across all extractions. -/
def verifyAll (env : PipelineEnv) (es : List ExtractionResult) : List VerificationResult :=
  es.map (verifyOne env)

/-- Modelled from the spec: publish one result into the final mapping —
a single write-once slot per question number (a later result for an
already-written key is dropped). -/
def insertOnce (m : List (String × VerificationResult)) (v : VerificationResult) :
    List (String × VerificationResult) :=
  if m.any (fun p => p.1 == v.questionNumber) then m
  else m ++ [(v.questionNumber, v)]

/-- Assemble the final `questionNumber → VerificationResult` mapping. -/
def buildMapping (vs : List VerificationResult) : List (String × VerificationResult) :=
  vs.foldl insertOnce []

/-- Lookup in the final mapping. -/
def mapLookup (m : List (String × VerificationResult)) (q : String) :
    Option VerificationResult :=
  match m.find? (fun p => p.1 == q) with
  | some p => some p.2
  | none => none

/-- Everything a pipeline run exposes. -/
structure PipelineOutput where
  segments : List QuestionSegment
  extractions : List ExtractionResult
  verifications : List VerificationResult
  mapping : List (String × VerificationResult)

/-- Modelled from the spec: the whole extraction-and-verification flow
on a chosen transcript — segmentation, budgeted tiered extraction,
batch verification, mapping assembly. It is a total function: every run
produces a best-effort output rather than an error. -/
def runPipeline (env : PipelineEnv) (budget : Nat) (transcript : String) : PipelineOutput :=
  let segs := segmentTranscript transcript
  let ex := extractAll env budget segs
  let vs := verifyAll env ex
  { segments := segs, extractions := ex, verifications := vs, mapping := buildMapping vs }

/-! ## Concrete environments used to instantiate the general theorems -/

/-- An environment whose interpreter always fails, whose verifier always
times out, and whose segments each cost one budget unit. -/
def failEnv : PipelineEnv :=
  { interp := fun _ _ => none, verify := fun _ _ => VerdictOutcome.timeout,
    cost := fun _ => 1 }

/-- An environment whose interpreter always answers "seven", whose
verifier always times out, and whose segments are free to resolve. -/
def timeoutEnv : PipelineEnv :=
  { interp := fun _ _ => some "seven", verify := fun _ _ => VerdictOutcome.timeout,
    cost := fun _ => 0 }

/-- An interpreter oracle that answers only the SEMANTIC instruction. -/
def semOnlyInterp : Interp := fun t _ =>
  match t with
  | Tier.SEMANTIC => some "42"
  | _ => none

/-- A segment whose text is long enough to avoid the MINIMAL
short-circuit. -/
def longSeg : QuestionSegment :=
  { questionNumber := "2", rawText := "the long segment text",
    hasBoxMarker := false, hasCheckMarker := false }

/-! ## Lemmas and theorems -/

theorem keyLe_refl (a : RecognitionCandidate) : keyLe a a :=
  Or.inr ⟨rfl, le_refl _⟩

theorem keyLe_trans {a b c : RecognitionCandidate} (hab : keyLe a b) (hbc : keyLe b c) :
    keyLe a c := by
  rcases hab with h1 | ⟨e1, l1⟩
  · rcases hbc with h2 | ⟨e2, _⟩
    · exact Or.inl (lt_trans h1 h2)
    · exact Or.inl (e2 ▸ h1)
  · rcases hbc with h2 | ⟨e2, l2⟩
    · exact Or.inl (e1 ▸ h2)
    · exact Or.inr ⟨e1.trans e2, le_trans l1 l2⟩

theorem beats_keyLe {a b : RecognitionCandidate} (h : beats a b) : keyLe a b := by
  rcases h with h | ⟨e, l⟩
  · exact Or.inl h
  · exact Or.inr ⟨e, le_of_lt l⟩

theorem not_beats_keyLe {a b : RecognitionCandidate} (h : ¬ beats a b) : keyLe b a := by
  unfold beats at h
  push_neg at h
  rcases lt_or_eq_of_le h.1 with hlt | heq
  · exact Or.inl hlt
  · exact Or.inr ⟨heq, h.2 heq.symm⟩

theorem keyLe_pickBetter_left (a b : RecognitionCandidate) : keyLe a (pickBetter a b) := by
  unfold pickBetter
  split
  · exact beats_keyLe (by assumption)
  · exact keyLe_refl a

theorem keyLe_pickBetter_right (a b : RecognitionCandidate) : keyLe b (pickBetter a b) := by
  unfold pickBetter
  split
  · exact keyLe_refl b
  · exact not_beats_keyLe (by assumption)

theorem pickBetter_mem (a b : RecognitionCandidate) :
    pickBetter a b = a ∨ pickBetter a b = b := by
  unfold pickBetter
  split
  · exact Or.inr rfl
  · exact Or.inl rfl

theorem foldl_pickBetter_mem (cs : List RecognitionCandidate) (a : RecognitionCandidate) :
    cs.foldl pickBetter a = a ∨ cs.foldl pickBetter a ∈ cs := by
  induction cs generalizing a with
  | nil => exact Or.inl rfl
  | cons c cs ih =>
    simp only [List.foldl_cons]
    rcases ih (pickBetter a c) with h | h
    · rcases pickBetter_mem a c with h2 | h2
      · exact Or.inl (h.trans h2)
      · right
        rw [h, h2]
        exact List.mem_cons_self c cs
    · exact Or.inr (List.mem_cons_of_mem c h)

theorem foldl_pickBetter_le_init (cs : List RecognitionCandidate) (a : RecognitionCandidate) :
    keyLe a (cs.foldl pickBetter a) := by
  induction cs generalizing a with
  | nil => exact keyLe_refl a
  | cons c cs ih =>
    simp only [List.foldl_cons]
    exact keyLe_trans (keyLe_pickBetter_left a c) (ih (pickBetter a c))

theorem foldl_pickBetter_le_mem (cs : List RecognitionCandidate) (a : RecognitionCandidate)
    (x : RecognitionCandidate) (hx : x ∈ cs) : keyLe x (cs.foldl pickBetter a) := by
  induction cs generalizing a with
  | nil => cases hx
  | cons c cs ih =>
    simp only [List.foldl_cons]
    rcases List.mem_cons.mp hx with rfl | h
    · exact keyLe_trans (keyLe_pickBetter_right a x) (foldl_pickBetter_le_init cs _)
    · exact ih _ h

theorem runTierList_trace_take (interp : Interp) (text : String) (ts : List Tier) :
    ∃ n, (runTierList interp text ts).2 = ts.take n := by
  induction ts with
  | nil => exact ⟨0, rfl⟩
  | cons t rest ih =>
    simp only [runTierList]
    cases h : (runTier interp t text).1 with
    | some a => exact ⟨1, by simp⟩
    | none =>
      obtain ⟨n, hn⟩ := ih
      exact ⟨n + 1, by simp [hn]⟩

theorem runTierList_failed_before (interp : Interp) (text : String) (ts : List Tier) :
    ∀ t ∈ (runTierList interp text ts).2.dropLast, (runTier interp t text).1 = none := by
  induction ts with
  | nil => intro t ht; cases ht
  | cons s rest ih =>
    simp only [runTierList]
    cases h : (runTier interp s text).1 with
    | some a => intro t ht; cases ht
    | none =>
      intro t ht
      rcases runTierList_trace_take interp text rest with ⟨n, hn⟩
      by_cases hr : (runTierList interp text rest).2 = []
      · rw [hr] at ht
        cases ht
      · have : (s :: (runTierList interp text rest).2).dropLast
            = s :: (runTierList interp text rest).2.dropLast := by
          cases hc : (runTierList interp text rest).2 with
          | nil => exact absurd hc hr
          | cons x xs => simp [hc]
        rw [this] at ht
        rcases List.mem_cons.mp ht with rfl | hmem
        · exact h
        · exact ih t hmem

theorem buildBlocks_nil_of_no_marker (ls : List String)
    (h : ∀ line ∈ ls, parseMarker line = none) : buildBlocks ls none = [] := by
  induction ls with
  | nil => rfl
  | cons line rest ih =>
    have hl : parseMarker line = none := h line (List.mem_cons_self _ _)
    simp only [buildBlocks, hl]
    exact ih (fun l hm => h l (List.mem_cons_of_mem _ hm))

theorem findMarkers_nil_iff (t : String) :
    findMarkers t = [] ↔ ∀ line ∈ splitLines t, parseMarker line = none := by
  unfold findMarkers
  constructor
  · intro h line hm
    by_contra hne
    cases hq : parseMarker line with
    | none => exact hne hq
    | some q =>
      have : q ∈ (splitLines t).filterMap parseMarker :=
        List.mem_filterMap.mpr ⟨line, hm, hq⟩
      rw [h] at this
      cases this
  · intro h
    exact List.filterMap_eq_nil_iff.mpr (fun l hm => h l hm)

theorem extractOne_questionNumber (env : PipelineEnv) (s : QuestionSegment) :
    (extractOne env s).questionNumber = s.questionNumber := by
  unfold extractOne extractSegment
  cases h : (runTierList env.interp s.rawText (tierSequence s.rawText)).1 with
  | none => simp [h]
  | some p => cases p; simp [h]

theorem verifyOne_questionNumber (env : PipelineEnv) (e : ExtractionResult) :
    (verifyOne env e).questionNumber = e.questionNumber := by
  unfold verifyOne
  cases h : e.answer with
  | none => rfl
  | some a => cases hv : env.verify e.questionNumber a <;> simp [hv]

theorem extractAll_forall₂ (env : PipelineEnv) (b : Nat) (segs : List QuestionSegment) :
    List.Forall₂ (fun s e => e = extractOne env s ∨ e = markUnresolved s)
      segs (extractAll env b segs) := by
  induction segs generalizing b with
  | nil => exact List.Forall₂.nil
  | cons s rest ih =>
    unfold extractAll
    split
    · exact List.Forall₂.cons (Or.inl rfl) (ih _)
    · exact List.Forall₂.cons (Or.inr rfl) (ih _)

theorem extractAll_questionNumbers (env : PipelineEnv) (b : Nat)
    (segs : List QuestionSegment) :
    (extractAll env b segs).map ExtractionResult.questionNumber
      = segs.map QuestionSegment.questionNumber := by
  induction segs generalizing b with
  | nil => rfl
  | cons s rest ih =>
    unfold extractAll
    split
    · simp [extractOne_questionNumber, ih]
    · simp [markUnresolved, ih]

theorem verifyAll_questionNumbers (env : PipelineEnv) (es : List ExtractionResult) :
    (verifyAll env es).map VerificationResult.questionNumber
      = es.map ExtractionResult.questionNumber := by
  unfold verifyAll
  rw [List.map_map]
  exact List.map_congr_left (fun e _ => verifyOne_questionNumber env e)

theorem foldl_insertOnce_key_mem (vs : List VerificationResult)
    (m : List (String × VerificationResult)) (q : String)
    (h : q ∈ m.map Prod.fst) : q ∈ (vs.foldl insertOnce m).map Prod.fst := by
  induction vs generalizing m with
  | nil => exact h
  | cons v rest ih =>
    simp only [List.foldl_cons]
    apply ih
    unfold insertOnce
    split
    · exact h
    · simp only [List.map_append, List.mem_append]
      exact Or.inl h

theorem foldl_insertOnce_covers (vs : List VerificationResult)
    (m : List (String × VerificationResult)) (v : VerificationResult) (hv : v ∈ vs) :
    v.questionNumber ∈ (vs.foldl insertOnce m).map Prod.fst := by
  induction vs generalizing m with
  | nil => cases hv
  | cons w rest ih =>
    simp only [List.foldl_cons]
    rcases List.mem_cons.mp hv with rfl | h
    · apply foldl_insertOnce_key_mem
      unfold insertOnce
      split
      · rename_i hany
        rcases List.any_eq_true.mp hany with ⟨p, hp, hpq⟩
        have : p.1 = v.questionNumber := by
          exact of_decide_eq_true hpq
        rw [← this]
        exact List.mem_map_of_mem Prod.fst hp
      · simp
    · exact ih _ h

theorem foldl_insertOnce_keys_sub (vs : List VerificationResult)
    (m : List (String × VerificationResult)) (q : String)
    (h : q ∈ (vs.foldl insertOnce m).map Prod.fst) :
    q ∈ m.map Prod.fst ∨ q ∈ vs.map VerificationResult.questionNumber := by
  induction vs generalizing m with
  | nil => exact Or.inl h
  | cons v rest ih =>
    simp only [List.foldl_cons] at h
    rcases ih _ h with h2 | h2
    · unfold insertOnce at h2
      split at h2
      · exact Or.inl h2
      · rw [List.map_append] at h2
        rcases List.mem_append.mp h2 with h3 | h3
        · exact Or.inl h3
        · right
          simp only [List.map_cons, List.map_nil, List.mem_singleton] at h3
          rw [List.map_cons]
          exact h3 ▸ List.mem_cons_self _ _
    · right
      rw [List.map_cons]
      exact List.mem_cons_of_mem _ h2

theorem foldl_insertOnce_keys_nodup (vs : List VerificationResult)
    (m : List (String × VerificationResult)) (h : (m.map Prod.fst).Nodup) :
    ((vs.foldl insertOnce m).map Prod.fst).Nodup := by
  induction vs generalizing m with
  | nil => exact h
  | cons v rest ih =>
    simp only [List.foldl_cons]
    apply ih
    unfold insertOnce
    split
    · exact h
    · rename_i hany
      simp only [List.map_append, List.map_cons, List.map_nil]
      apply List.Nodup.append h (List.nodup_singleton _)
      intro a ha hb
      simp only [List.mem_singleton] at hb
      subst hb
      rcases List.mem_map.mp ha with ⟨p, hp, hpq⟩
      apply hany
      exact List.any_eq_true.mpr ⟨p, hp, decide_eq_true hpq⟩

/-! ## Helper lemmas: substring search, mapping construction, budget
exhaustion -/

theorem startsWithSub_append (sub b : List Char) :
    startsWithSub (sub ++ b) sub = true := by
  induction sub with
  | nil => cases b <;> rfl
  | cons c cs ih => simp [startsWithSub, ih]

theorem containsSub_of_startsWith {l sub : List Char}
    (h : startsWithSub l sub = true) : containsSub l sub = true := by
  cases l with
  | nil =>
    cases sub with
    | nil => rfl
    | cons b bs => cases h
  | cons a as => simp [containsSub, h]

theorem containsSub_of_append (a sub b : List Char) :
    containsSub (a ++ (sub ++ b)) sub = true := by
  induction a with
  | nil => exact containsSub_of_startsWith (startsWithSub_append sub b)
  | cons c cs ih => simp [containsSub, ih]

theorem startsWithSub_exists {l sub : List Char}
    (h : startsWithSub l sub = true) : ∃ b, l = sub ++ b := by
  induction sub generalizing l with
  | nil => exact ⟨l, rfl⟩
  | cons c cs ih =>
    cases l with
    | nil => cases h
    | cons a as =>
      simp only [startsWithSub, Bool.and_eq_true, beq_iff_eq] at h
      obtain ⟨b, hb⟩ := ih h.2
      exact ⟨b, by rw [h.1, hb]; rfl⟩

theorem containsSub_exists {l sub : List Char}
    (h : containsSub l sub = true) : ∃ a b, l = a ++ (sub ++ b) := by
  induction l with
  | nil =>
    cases sub with
    | nil => exact ⟨[], [], rfl⟩
    | cons c cs => cases h
  | cons x xs ih =>
    simp only [containsSub, Bool.or_eq_true] at h
    rcases h with h | h
    · obtain ⟨b, hb⟩ := startsWithSub_exists h
      exact ⟨[], b, by rw [hb]; rfl⟩
    · obtain ⟨a, b, hab⟩ := ih h
      exact ⟨x :: a, b, by rw [hab]; rfl⟩

theorem containsSub_filter (p : Char → Bool) {l sub : List Char}
    (hsub : ∀ c ∈ sub, p c = true) (h : containsSub l sub = true) :
    containsSub (l.filter p) sub = true := by
  obtain ⟨a, b, rfl⟩ := containsSub_exists h
  rw [List.filter_append, List.filter_append, List.filter_eq_self.mpr hsub]
  exact containsSub_of_append _ _ _

theorem foldl_insertOnce_eq_append (vs : List VerificationResult)
    (m : List (String × VerificationResult))
    (hdisj : ∀ v ∈ vs, v.questionNumber ∉ m.map Prod.fst)
    (hnd : (vs.map VerificationResult.questionNumber).Nodup) :
    vs.foldl insertOnce m = m ++ vs.map (fun v => (v.questionNumber, v)) := by
  induction vs generalizing m with
  | nil => simp
  | cons v rest ih =>
    simp only [List.foldl_cons]
    have hnotin : v.questionNumber ∉ m.map Prod.fst :=
      hdisj v (List.mem_cons_self _ _)
    have hins : insertOnce m v = m ++ [(v.questionNumber, v)] := by
      unfold insertOnce
      split
      · rename_i hany
        exfalso
        rcases List.any_eq_true.mp hany with ⟨p, hp, hpq⟩
        exact hnotin (of_decide_eq_true hpq ▸ List.mem_map_of_mem Prod.fst hp)
      · rfl
    rw [hins]
    simp only [List.map_cons, List.nodup_cons] at hnd
    rw [ih (m ++ [(v.questionNumber, v)])]
    · simp
    · intro w hw
      simp only [List.map_append, List.mem_append, List.map_cons, List.map_nil,
        List.mem_singleton, not_or]
      refine ⟨hdisj w (List.mem_cons_of_mem _ hw), ?_⟩
      intro heq
      exact hnd.1 (heq ▸ List.mem_map_of_mem VerificationResult.questionNumber hw)
    · exact hnd.2

theorem find_pair_of_nodup (vs : List VerificationResult)
    (hnd : (vs.map VerificationResult.questionNumber).Nodup)
    (v : VerificationResult) (hv : v ∈ vs) :
    (vs.map (fun w => (w.questionNumber, w))).find?
        (fun p => p.1 == v.questionNumber) = some (v.questionNumber, v) := by
  induction vs with
  | nil => cases hv
  | cons w rest ih =>
    simp only [List.map_cons, List.nodup_cons] at hnd
    rcases List.mem_cons.mp hv with rfl | h
    · rw [List.map_cons, List.find?_cons_of_pos]
      simp
    · have hne : w.questionNumber ≠ v.questionNumber := by
        intro hq
        exact hnd.1 (hq ▸ List.mem_map_of_mem VerificationResult.questionNumber h)
      rw [List.map_cons, List.find?_cons_of_neg]
      · exact ih hnd.2 h
      · simp [hne]

theorem mapLookup_buildMapping (vs : List VerificationResult)
    (hnd : (vs.map VerificationResult.questionNumber).Nodup)
    (v : VerificationResult) (hv : v ∈ vs) :
    mapLookup (buildMapping vs) v.questionNumber = some v := by
  unfold mapLookup buildMapping
  rw [foldl_insertOnce_eq_append vs [] (by simp) hnd]
  rw [List.nil_append, find_pair_of_nodup vs hnd v hv]

theorem extractAll_zero_budget (env : PipelineEnv) (segs : List QuestionSegment)
    (h : ∀ s ∈ segs, 0 < env.cost s.rawText) :
    extractAll env 0 segs = segs.map markUnresolved := by
  induction segs with
  | nil => rfl
  | cons s rest ih =>
    unfold extractAll
    have : ¬ env.cost s.rawText ≤ 0 :=
      Nat.not_le_of_lt (h s (List.mem_cons_self _ _))
    rw [if_neg this]
    simp only [List.map_cons]
    congr 1
    exact ih (fun x hx => h x (List.mem_cons_of_mem _ hx))

theorem mapping_covers_segments (env : PipelineEnv) (b : Nat) (t : String) :
    ∀ s ∈ segmentTranscript t,
      s.questionNumber ∈ (runPipeline env b t).mapping.map Prod.fst := by
  intro s hs
  have hq : s.questionNumber
      ∈ (verifyAll env (extractAll env b (segmentTranscript t))).map
          VerificationResult.questionNumber := by
    rw [verifyAll_questionNumbers, extractAll_questionNumbers]
    exact List.mem_map_of_mem QuestionSegment.questionNumber hs
  rcases List.mem_map.mp hq with ⟨v, hv, hvq⟩
  have := foldl_insertOnce_covers
    (verifyAll env (extractAll env b (segmentTranscript t))) [] v hv
  rw [hvq] at this
  exact this

theorem extractSegment_trace (interp : Interp) (seg : QuestionSegment) :
    (extractSegment interp seg).2
      = (runTierList interp seg.rawText (tierSequence seg.rawText)).2 := by
  unfold extractSegment
  cases h : (runTierList interp seg.rawText (tierSequence seg.rawText)).1 with
  | none => simp [h]
  | some p => cases p; simp [h]

/-! ## Claim theorems -/

/-- C4: for every Document with at least one completed
RecognitionCandidate, the Recognition Orchestrator selects exactly one
Transcript; the selected candidate's confidence equals the maximum
confidence among all produced candidates, and among the candidates tied
on that maximum confidence the selected one has the longest
non-whitespace character count. -/
theorem orchestrator_selection (l : List RecognitionCandidate) (h : l ≠ []) :
    ∃ best, selectBest l = some best ∧ best ∈ l ∧
      (∀ c ∈ l, c.confidence ≤ best.confidence) ∧
      (∀ c ∈ l, c.confidence = best.confidence →
        nonWhitespaceCount c.text ≤ nonWhitespaceCount best.text) := by
  cases l with
  | nil => exact absurd rfl h
  | cons c cs =>
    have hle : ∀ x ∈ c :: cs, keyLe x (cs.foldl pickBetter c) := by
      intro x hx
      rcases List.mem_cons.mp hx with rfl | hm
      · exact foldl_pickBetter_le_init cs x
      · exact foldl_pickBetter_le_mem cs c x hm
    refine ⟨cs.foldl pickBetter c, rfl, ?_, ?_, ?_⟩
    · rcases foldl_pickBetter_mem cs c with h1 | h1
      · rw [h1]
        exact List.mem_cons_self _ _
      · exact List.mem_cons_of_mem _ h1
    · intro x hx
      rcases hle x hx with hlt | ⟨heq, _⟩
      · exact le_of_lt hlt
      · exact le_of_eq heq
    · intro x hx heq
      rcases hle x hx with hlt | ⟨_, hlen⟩
      · exact absurd heq (ne_of_lt hlt)
      · exact hlen

/-- Witness for C4: a two-candidate tie on confidence, where the longer
non-whitespace text is selected. -/
theorem orchestrator_selection_witness :
    ∃ best, selectBest
        [{ sourceVariant := "v1", text := "ab", confidence := 1 },
         { sourceVariant := "v2", text := "abcd", confidence := 1 }] = some best
      ∧ best ∈
        [{ sourceVariant := "v1", text := "ab", confidence := 1 },
         { sourceVariant := "v2", text := "abcd", confidence := 1 }]
      ∧ (∀ c ∈
          [({ sourceVariant := "v1", text := "ab", confidence := 1 } : RecognitionCandidate),
           { sourceVariant := "v2", text := "abcd", confidence := 1 }],
          c.confidence ≤ best.confidence)
      ∧ (∀ c ∈
          [({ sourceVariant := "v1", text := "ab", confidence := 1 } : RecognitionCandidate),
           { sourceVariant := "v2", text := "abcd", confidence := 1 }],
          c.confidence = best.confidence →
            nonWhitespaceCount c.text ≤ nonWhitespaceCount best.text) :=
  orchestrator_selection _ (List.cons_ne_nil _ _)

/-- C2: for every QuestionSegment, the Tiered Extractor runs its tiers
in the fixed order SEMANTIC, AGGRESSIVE, MINIMAL, PATTERN and stops at
the first tier that yields a non-empty well-formed answer: the trace of
invoked tiers is an initial prefix of the tier sequence, every invoked
tier before the last one failed, and when the MINIMAL short-circuit
does not apply and SEMANTIC yields a non-null answer, the trace is
exactly [SEMANTIC] — AGGRESSIVE, MINIMAL and PATTERN are never invoked. -/
theorem tier_ordering (interp : Interp) (seg : QuestionSegment) :
    (∃ n, (extractSegment interp seg).2 = (tierSequence seg.rawText).take n)
    ∧ (∀ t ∈ (extractSegment interp seg).2.dropLast,
        (runTier interp t seg.rawText).1 = none)
    ∧ (minimalCutoff ≤ nonWhitespaceCount seg.rawText →
        ∀ a, wellFormed (interp Tier.SEMANTIC seg.rawText) = some a →
          (extractSegment interp seg).2 = [Tier.SEMANTIC]
          ∧ (extractSegment interp seg).1.answer = some a
          ∧ (extractSegment interp seg).1.tierUsed = Tier.SEMANTIC) := by
  refine ⟨?_, ?_, ?_⟩
  · rw [extractSegment_trace]
    exact runTierList_trace_take interp seg.rawText _
  · rw [extractSegment_trace]
    exact runTierList_failed_before interp seg.rawText _
  · intro hcut a hsem
    have hseq : tierSequence seg.rawText
        = [Tier.SEMANTIC, Tier.AGGRESSIVE, Tier.MINIMAL, Tier.PATTERN] := by
      unfold tierSequence
      rw [if_neg (Nat.not_lt.mpr hcut)]
    have hrun : runTierList interp seg.rawText
        [Tier.SEMANTIC, Tier.AGGRESSIVE, Tier.MINIMAL, Tier.PATTERN]
        = (some (a, Tier.SEMANTIC), [Tier.SEMANTIC]) := by
      simp [runTierList, runTier, hsem]
    unfold extractSegment
    rw [hseq, hrun]
    exact ⟨rfl, rfl, rfl⟩

/-- Witness for C2: with an interpreter that answers the SEMANTIC
instruction on a long segment, only SEMANTIC is invoked. -/
theorem tier_ordering_witness :
    (minimalCutoff ≤ nonWhitespaceCount longSeg.rawText)
    ∧ wellFormed (semOnlyInterp Tier.SEMANTIC longSeg.rawText) = some "42"
    ∧ (extractSegment semOnlyInterp longSeg).2 = [Tier.SEMANTIC]
    ∧ (extractSegment semOnlyInterp longSeg).1.answer = some "42"
    ∧ (extractSegment semOnlyInterp longSeg).1.tierUsed = Tier.SEMANTIC :=
  ⟨by decide, rfl,
    (tier_ordering semOnlyInterp longSeg).2.2 (by decide) "42" rfl⟩

/-- C7: the PATTERN tier is a pure deterministic function of the segment
text — its outcome does not depend on the interpreter oracle in scope
(so repeated invocations on identical text return identical output), it
performs no external interpreter call, and its answer is exactly the
deterministic pattern scan of the text. -/
theorem pattern_tier_deterministic (env₁ env₂ : Interp) (text : String) :
    runTier env₁ Tier.PATTERN text = runTier env₂ Tier.PATTERN text
    ∧ (runTier env₁ Tier.PATTERN text).2 = []
    ∧ (runTier env₁ Tier.PATTERN text).1 = patternExtract text :=
  ⟨rfl, rfl, rfl⟩

/-- C6: on the two documented Q9 segment texts, the PATTERN tier
extracts exactly the set-builder clause for 9a and the full
comma-separated exclusion-clause list, unmodified, for 9b. -/
theorem pattern_tier_examples :
    patternExtract "9a. domain: => cos(x)/(x+1) => x ≠ -1 \x7bx ∈ ℝ | x ≠ -1\x7d ✓"
      = some "\x7bx ∈ ℝ | x ≠ -1\x7d"
    ∧ patternExtract "9b. x ≠ -1, x ≠ 2 + 4k, x ≠ 3 + 4k, k ∈ ℤ"
      = some "x ≠ -1, x ≠ 2 + 4k, x ≠ 3 + 4k, k ∈ ℤ" := by
  exact ⟨by decide, by decide⟩

/-- C8: for every transcript in which the Segmenter finds no
question-boundary marker, an empty transcript yields zero segments, and
a non-empty transcript yields exactly one segment whose questionNumber
is "1" and whose rawText is the entire transcript. -/
theorem segmenter_no_marker_fallback (t : String) (h : findMarkers t = []) :
    (t.data.isEmpty = true → segmentTranscript t = [])
    ∧ (t.data.isEmpty = false →
        ∃ seg, segmentTranscript t = [seg]
          ∧ seg.questionNumber = "1" ∧ seg.rawText = t) := by
  have hblocks : buildBlocks (splitLines t) none = [] :=
    buildBlocks_nil_of_no_marker _ ((findMarkers_nil_iff t).mp h)
  constructor
  · intro he
    unfold segmentTranscript
    rw [he]
    rfl
  · intro he
    unfold segmentTranscript
    rw [he, hblocks]
    exact ⟨mkSegment "1" t, rfl, rfl, rfl⟩

/-- Witness for C8: a non-empty transcript with no markers becomes the
single fallback segment numbered "1". -/
theorem segmenter_no_marker_fallback_witness :
    findMarkers "no markers here at all" = []
    ∧ ("no markers here at all").data.isEmpty = false
    ∧ ∃ seg, segmentTranscript "no markers here at all" = [seg]
        ∧ seg.questionNumber = "1" ∧ seg.rawText = "no markers here at all" :=
  ⟨by decide, by decide,
    (segmenter_no_marker_fallback "no markers here at all" (by decide)).2 (by decide)⟩

/-- C5: in the demo Home page's handlePracticeNext, the verdict recorded
for each answered practice question is Math.random() > 0.5 and therefore
independent of the submitted answers: any two answer maps over the same
question keys are graded identically, draw for draw. -/
theorem demo_grading_answer_independent (rand : Nat → ℚ) (i : Nat)
    (a₁ a₂ : List (Nat × String)) (h : a₁.map Prod.fst = a₂.map Prod.fst) :
    demoGrade rand i a₁ = demoGrade rand i a₂ := by
  induction a₁ generalizing a₂ i with
  | nil =>
    cases a₂ with
    | nil => rfl
    | cons q qs => simp at h
  | cons p ps ih =>
    cases a₂ with
    | nil => simp at h
    | cons q qs =>
      obtain ⟨k1, s1⟩ := p
      obtain ⟨k2, s2⟩ := q
      simp only [List.map_cons, List.cons.injEq] at h
      simp only [demoGrade, h.1]
      exact congrArg _ (ih (i + 1) qs h.2)

/-- Witness for C5: two different answers to the same question key are
graded identically. -/
theorem demo_grading_answer_independent_witness :
    List.map Prod.fst [(0, "alpha")] = List.map Prod.fst [(0, "beta")]
    ∧ demoGrade (fun _ => 1) 0 [(0, "alpha")]
        = demoGrade (fun _ => 1) 0 [(0, "beta")] :=
  ⟨rfl, demo_grading_answer_independent (fun _ => 1) 0 [(0, "alpha")] [(0, "beta")] rfl⟩

/-- C10: in the subject-aware handlePracticeNext, for every selected
subject, an answer to question 0 whose trimmed, lowercased,
whitespace-stripped form contains the substring "65.3" is graded
correct — the hard-coded substring check is keyed only on the question
id, not on the subject. -/
theorem grade_contains_653_correct (subject answer : String)
    (h : containsSub (normalizeUserAnswer answer) "65.3".data = true) :
    gradeAnswer subject 0 answer = true := by
  have hnu : containsSub (stripPercentBackslash (normalizeUserAnswer answer))
      "65.3".data = true := by
    unfold stripPercentBackslash
    refine containsSub_filter _ ?_ h
    decide
  simp only [gradeAnswer]
  split
  · simp [physicsAnswers, answerMatches, hnu]
  · simp [mathAnswers, answerMatches, hnu]

/-- Witness for C10: the math-subject answer "65.3" to question 0 is
marked correct even though the only configured math answer for question
0 is "0". -/
theorem grade_contains_653_correct_witness :
    containsSub (normalizeUserAnswer "65.3") "65.3".data = true
    ∧ gradeAnswer "math" 0 "65.3" = true
    ∧ mathAnswers 0 = ["0"] :=
  ⟨by decide, grade_contains_653_correct "math" "65.3" (by decide), rfl⟩

/-- C3: for every question whose extraction succeeded, a Verifier
timeout on that question never removes it from the final mapping and
never alters its answer: the mapping still contains that question with
exactly the originally extracted answer, matchConfidence 0 and
corrected false. -/
theorem verifier_timeout_passthrough (env : PipelineEnv) (b : Nat) (t : String)
    (e : ExtractionResult) (a : String)
    (hmem : e ∈ (runPipeline env b t).extractions)
    (ha : e.answer = some a)
    (htimeout : env.verify e.questionNumber a = VerdictOutcome.timeout)
    (hnd : ((segmentTranscript t).map QuestionSegment.questionNumber).Nodup) :
    mapLookup (runPipeline env b t).mapping e.questionNumber
      = some { questionNumber := e.questionNumber, finalAnswer := a,
               matchConfidence := 0, corrected := false } := by
  simp only [runPipeline] at hmem ⊢
  have hv : verifyOne env e
      = { questionNumber := e.questionNumber, finalAnswer := a,
          matchConfidence := 0, corrected := false } := by
    simp [verifyOne, ha, htimeout]
  have hvm : verifyOne env e
      ∈ verifyAll env (extractAll env b (segmentTranscript t)) :=
    List.mem_map_of_mem (verifyOne env) hmem
  have hkeys : ((verifyAll env (extractAll env b (segmentTranscript t))).map
      VerificationResult.questionNumber).Nodup := by
    rw [verifyAll_questionNumbers, extractAll_questionNumbers]
    exact hnd
  have := mapLookup_buildMapping _ hkeys _ hvm
  rw [verifyOne_questionNumber] at this
  rw [this, hv]

/-- Witness for C3: a one-question run whose verifier always times out
keeps the extracted answer "seven" in the mapping with matchConfidence 0
and corrected false. -/
theorem verifier_timeout_passthrough_witness :
    (⟨"1", some "seven", Tier.MINIMAL, mkRat 1 2⟩ : ExtractionResult)
        ∈ (runPipeline timeoutEnv 0 "1. answer").extractions
    ∧ mapLookup (runPipeline timeoutEnv 0 "1. answer").mapping "1"
        = some { questionNumber := "1", finalAnswer := "seven",
                 matchConfidence := 0, corrected := false } :=
  ⟨by rw [show (runPipeline timeoutEnv 0 "1. answer").extractions
        = [⟨"1", some "seven", Tier.MINIMAL, mkRat 1 2⟩] from by decide]
      exact List.mem_singleton.mpr rfl,
   verifier_timeout_passthrough timeoutEnv 0 "1. answer"
      ⟨"1", some "seven", Tier.MINIMAL, mkRat 1 2⟩ "seven"
      (by rw [show (runPipeline timeoutEnv 0 "1. answer").extractions
            = [⟨"1", some "seven", Tier.MINIMAL, mkRat 1 2⟩] from by decide]
          exact List.mem_singleton.mpr rfl)
      rfl rfl (by decide)⟩

/-- C9: in every reachable pipeline state, every QuestionSegment has at
most one ExtractionResult and at most one VerificationResult (the
question numbers of the extraction and verification lists coincide
positionally with the segments'), the final mapping's keys are distinct
(one write-once slot per question number), and every mapping key comes
from a Segmenter-produced segment — the pipeline never invents a
question number. -/
theorem pipeline_mapping_invariants (env : PipelineEnv) (b : Nat) (t : String) :
    (runPipeline env b t).extractions.map ExtractionResult.questionNumber
        = (segmentTranscript t).map QuestionSegment.questionNumber
    ∧ (runPipeline env b t).verifications.map VerificationResult.questionNumber
        = (segmentTranscript t).map QuestionSegment.questionNumber
    ∧ ((runPipeline env b t).mapping.map Prod.fst).Nodup
    ∧ ∀ q ∈ (runPipeline env b t).mapping.map Prod.fst,
        q ∈ (segmentTranscript t).map QuestionSegment.questionNumber := by
  simp only [runPipeline]
  refine ⟨extractAll_questionNumbers env b _, ?_, ?_, ?_⟩
  · rw [verifyAll_questionNumbers, extractAll_questionNumbers]
  · exact foldl_insertOnce_keys_nodup _ [] List.nodup_nil
  · intro q hq
    rcases foldl_insertOnce_keys_sub _ [] q hq with h0 | h0
    · cases h0
    · rw [verifyAll_questionNumbers, extractAll_questionNumbers] at h0
      exact h0

/-- Witness for C9: the invariants instantiated on a concrete
two-question run. -/
theorem pipeline_mapping_invariants_witness :
    (runPipeline timeoutEnv 0 "1. x\n2. y").extractions.map
        ExtractionResult.questionNumber
      = (segmentTranscript "1. x\n2. y").map QuestionSegment.questionNumber
    ∧ (runPipeline timeoutEnv 0 "1. x\n2. y").verifications.map
        VerificationResult.questionNumber
      = (segmentTranscript "1. x\n2. y").map QuestionSegment.questionNumber
    ∧ ((runPipeline timeoutEnv 0 "1. x\n2. y").mapping.map Prod.fst).Nodup
    ∧ ∀ q ∈ (runPipeline timeoutEnv 0 "1. x\n2. y").mapping.map Prod.fst,
        q ∈ (segmentTranscript "1. x\n2. y").map QuestionSegment.questionNumber :=
  pipeline_mapping_invariants timeoutEnv 0 "1. x\n2. y"

/-- C1: every pipeline run returns a best-effort mapping rather than an
error — the mapping has an entry for every segment's question number
(even when every answer is null); every segment either keeps its full
tiered-extraction result or is marked unresolved, and an unresolved
segment carries tierUsed NONE, a null answer, and matchConfidence 0 in
its verification record; when the overall budget is exhausted, all
still-costly segments are marked unresolved; and in the frontend flow an
analysis failure still completes the loading step with empty mistakes,
empty summary and an empty practice-question list. -/
theorem best_effort_degradation (env : PipelineEnv) (b : Nat) (t : String)
    (p : ApiOutcome (List String)) :
    (∀ s ∈ segmentTranscript t,
        s.questionNumber ∈ (runPipeline env b t).mapping.map Prod.fst)
    ∧ List.Forall₂ (fun s e => e = extractOne env s ∨ e = markUnresolved s)
        (segmentTranscript t) (runPipeline env b t).extractions
    ∧ (∀ s : QuestionSegment, (markUnresolved s).tierUsed = Tier.NONE
        ∧ (markUnresolved s).answer = none
        ∧ verifyOne env (markUnresolved s)
            = { questionNumber := s.questionNumber, finalAnswer := "",
                matchConfidence := 0, corrected := false })
    ∧ ((∀ s ∈ segmentTranscript t, 0 < env.cost s.rawText) →
        extractAll env 0 (segmentTranscript t)
          = (segmentTranscript t).map markUnresolved)
    ∧ loadingStep ApiOutcome.err p
        = { mistakes := [], summary := "", practiceQuestions := [] } := by
  refine ⟨mapping_covers_segments env b t, ?_, ?_, ?_, rfl⟩
  · simp only [runPipeline]
    exact extractAll_forall₂ env b _
  · intro s
    exact ⟨rfl, rfl, rfl⟩
  · intro h
    exact extractAll_zero_budget env _ h

/-- Witness for C1: with one budget unit per segment and no budget, a
two-question run marks every segment unresolved and still maps both
question numbers. -/
theorem best_effort_degradation_witness :
    (∀ s ∈ segmentTranscript "1. x\n2. y", 0 < failEnv.cost s.rawText)
    ∧ extractAll failEnv 0 (segmentTranscript "1. x\n2. y")
        = (segmentTranscript "1. x\n2. y").map markUnresolved
    ∧ loadingStep ApiOutcome.err (ApiOutcome.ok ["q"])
        = { mistakes := [], summary := "", practiceQuestions := [] } :=
  ⟨by decide,
   (best_effort_degradation failEnv 0 "1. x\n2. y"
      (ApiOutcome.ok ["q"])).2.2.2.1 (by decide),
   (best_effort_degradation failEnv 0 "1. x\n2. y"
      (ApiOutcome.ok ["q"])).2.2.2.2⟩

end Spec2Proof
